import Mathlib

/-!
# Verification of `freesas.model` (SASModel)

Shallow embedding of `src/freesas/model.py` (an early version of freesas).
Coordinates of dummy atoms are embedded as exact rationals (the Python code
uses IEEE doubles; the claims under study are about the exact algebraic
structure, and the concrete inputs used in counterexamples and witnesses are
exactly representable).  Square roots (`numpy.sqrt`, `** 0.5`) land in `ℝ`.

The Cython accelerated module `freesas._distance` is not part of the sources;
all embeddings below model the pure-Python fallback paths (`use_cython` has no
effect because the `from . import _distance` fails and `_distance is None`).

A point cloud (`SASModel.atoms`, an `(n, 3)` numpy array) is embedded as a
`List Q3` of its rows.

The file has two parts: first all definitions (the embedding of the code,
plus the specification-side formulas it is compared against), then the
theorems.
-/

namespace FreeSAS

/-! ## Definitions: geometry and the NSD metric -/

/-- A dummy atom: an (x, y, z) coordinate triple. -/
abbrev Q3 := ℚ × ℚ × ℚ

/-- Squared Euclidean distance between two atoms.  In `SASModel.dist` and
`SASModel._calc_fineness` this is the entry of the matrix
`delta_expand(x,x)**2 + delta_expand(y,y)**2 + delta_expand(z,z)**2`
(`model.py` lines 134 and 172): `delta_expand` broadcasts the coordinate-wise
differences, so the `(i,j)` entry is exactly the squared distance between
atom `i` of the first cloud and atom `j` of the second. -/
def sqdist (a b : Q3) : ℚ :=
  (a.1 - b.1) ^ 2 + (a.2.1 - b.2.1) ^ 2 + (a.2.2 - b.2.2) ^ 2

/-- `numpy` maximum of a vector of values (`D.max()` flattens the matrix, so a
nested application covers the matrix case).  `numpy` raises `ValueError` on an
empty array; every use below is guarded, so the `[]` case (junk value `0`) is
never reached. -/
def listMax : List ℚ → ℚ
  | [] => 0
  | [x] => x
  | x :: r => max x (listMax (r : List ℚ))

/-- `numpy` minimum of a vector of values (one row or column of a distance
matrix, for `.min(axis=...)`).  `numpy` raises `ValueError` on an empty axis;
every use below is guarded, so the `[]` case (junk value `0`) is never
reached. -/
def listMin : List ℚ → ℚ
  | [] => 0
  | [x] => x
  | x :: r => min x (listMin (r : List ℚ))

/-- Squared fineness of a model: the pure-Python branch of
`SASModel._calc_fineness` (`model.py` lines 134-135) before the final square
root.  `D` is the matrix of pairwise squared distances of the cloud with
itself; the code computes `d12 = (D.max()*numpy.eye(n) + D).min(axis=0).mean()`:
the diagonal (each atom's zero self-distance) is masked by adding the global
maximum `D.max()`, then the minimum of each column and the mean over the
columns are taken. -/
def fineness_sq (ats : List Q3) : ℚ :=
  let M := listMax (ats.map (fun ai => listMax (ats.map (fun aj => sqdist ai aj))))
  ((ats.enum.map (fun ja => listMin (ats.enum.map (fun ia =>
      (if ia.1 = ja.1 then M else 0) + sqdist ia.2 ja.2)))).sum) / ats.length

/-- `SASModel._calc_fineness` (pure-Python branch, `model.py` line 136):
`fineness = numpy.sqrt(d12)`.  This is also the value that the lazily-cached
property `SASModel.fineness` (lines 139-145) computes and stores on first
access, so it is "the model's stored fineness value". -/
noncomputable def calcFineness (ats : List Q3) : ℝ :=
  Real.sqrt (fineness_sq ats)

/-- Sum over the atoms `a` of the first cloud of the minimum over the atoms
`b` of the second cloud of the squared distance: `d2.min(axis=1).sum()` in
`SASModel.dist` (`model.py` line 174), where `d2` has one row per atom of
`self` (`mol1 = A`) and one column per atom of `other` (`mol2 = B`). -/
def sumMinAxis1 (A B : List Q3) : ℚ :=
  (A.map (fun a => listMin (B.map (fun b => sqdist a b)))).sum

/-- Sum over the columns of the per-column minimum of the squared-distance
matrix: `d2.min(axis=0).sum()` in `SASModel.dist` (`model.py` line 174). -/
def sumMinAxis0 (A B : List Q3) : ℚ :=
  (B.map (fun b => listMin (A.map (fun a => sqdist a b)))).sum

/-- `SASModel.dist` (pure-Python branch, `model.py` lines 154-175): the
normalized spatial discrepancy between the clouds `A = self.atoms` and
`B = other.atoms`,

`D = (0.5*((1./(n1*f2*f2))*d2.min(axis=1).sum()
         + (1./(n2*f1*f1))*d2.min(axis=0).sum()))**0.5`,

with `n1 = mol1.shape[0]`, `n2 = mol2.shape[0]`, `f1 = self.fineness`,
`f2 = other.fineness`.  Since the radicand is a nonnegative real under the
guards below, Python's `** 0.5` is `Real.sqrt`.  The two guards model the
cases in which the Python expression does not produce a finite float:
* an empty cloud: `.min` over an empty axis raises `ValueError` (and computing
  the fineness of an empty cloud raises before that);
* a zero fineness (every atom has a coinciding twin, so
  `fineness == 0.0` exactly): the IEEE coefficient `1./(n*0.0*0.0)` is `inf`
  and the result is `inf` or `nan`, never a (finite) real.
The float `fineness` is zero exactly when the exact rational `fineness_sq` is
zero (`calcFineness_eq_zero_iff`), which keeps the guard decidable. -/
noncomputable def dist (A B : List Q3) : Option ℝ :=
  if A.length = 0 ∨ B.length = 0 then none
  else if fineness_sq A = 0 ∨ fineness_sq B = 0 then none
  else some (Real.sqrt ((0.5 : ℝ) *
    ((1 / (A.length * calcFineness B * calcFineness B)) * (sumMinAxis1 A B : ℝ) +
     (1 / (B.length * calcFineness A * calcFineness A)) * (sumMinAxis0 A B : ℝ))))

/-! ## Definitions: specification-side formulas

The definitions in this block are translated from the specification's words
(`spec.md` §4.2), not from the code; they exist only to be compared with the
code-derived definitions above. -/

/-- Euclidean distance `d(a,b)` between two atoms, as the specification words
it. -/
noncomputable def euclid (a b : Q3) : ℝ :=
  Real.sqrt (((a.1 : ℝ) - (b.1 : ℝ)) ^ 2 + ((a.2.1 : ℝ) - (b.2.1 : ℝ)) ^ 2 +
    ((a.2.2 : ℝ) - (b.2.2 : ℝ)) ^ 2)

/-- Minimum of a list of real values (spec side).  Junk value `0` on `[]`,
never reached: the claims quantify over models with at least two atoms. -/
noncomputable def listMinR : List ℝ → ℝ
  | [] => 0
  | [x] => x
  | x :: r => min x (listMinR (r : List ℝ))

/-- The discrepancy formula exactly as the specification spells it:
`sqrt( 0.5 * ( (1/(|A|*f(B)^2)) * Σ_{a∈A} min_{b∈B} d(a,b)^2
             + (1/(|B|*f(A)^2)) * Σ_{b∈B} min_{a∈A} d(a,b)^2 ) )`,
with `d` the Euclidean distance and `f` the stored fineness values. -/
noncomputable def specNSD (A B : List Q3) : ℝ :=
  Real.sqrt (((1 : ℝ) / 2) *
    ((1 / (A.length * calcFineness B ^ 2)) *
        (A.map (fun a => listMinR (B.map (fun b => euclid a b ^ 2)))).sum +
     (1 / (B.length * calcFineness A ^ 2)) *
        (B.map (fun b => listMinR (A.map (fun a => euclid a b ^ 2)))).sum))

/-- Per atom `j` of the model, the minimum squared distance to the *other*
atoms of the same model (the `i = j` entry excluded by construction rather
than by masking).  Used to state what `_calc_fineness` actually computes. -/
def nnsqList (ats : List Q3) : List ℚ :=
  ats.enum.map (fun ja => listMin ((ats.enum.filter (fun ia => ¬ (ia.1 = ja.1))).map
    (fun ia => sqdist ia.2 ja.2)))

/-- The fineness as the specification words it: "the mean, over each atom in
X, of the Euclidean distance to its nearest *other* atom in X
(self-excluded)". -/
noncomputable def specFineness (ats : List Q3) : ℝ :=
  ((ats.enum.map (fun ja => listMinR ((ats.enum.filter (fun ia => ¬ (ia.1 = ja.1))).map
      (fun ia => euclid ia.2 ja.2)))).sum) / ats.length

/-! ## Definitions: concrete models used in counterexamples and witnesses -/

/-- Three collinear atoms with unequal nearest-neighbour spacings (1, 1, 2). -/
def cex3 : List Q3 := [(0,0,0), (1,0,0), (3,0,0)]

/-- Two coinciding atoms: a two-atom model whose fineness is exactly `0.0`. -/
def cexDup : List Q3 := [(0,0,0), (0,0,0)]

/-- Two atoms one unit apart (fineness 1). -/
def pairA : List Q3 := [(0,0,0), (1,0,0)]

/-- Two atoms two units apart (fineness 2). -/
def pairB : List Q3 := [(0,0,1), (2,0,1)]

/-! ## Definitions: centroid, inertia tensor and the canonical pose

These model `SASModel.centroid`, `SASModel.inertiatensor`,
`SASModel.canonical_translate`, `SASModel.canonical_rotate` and
`SASModel.canonical_position`.  Real coordinates (`R3`) are used here: the
eigendecomposition driving the canonical rotation lives in `ℝ`. -/

/-- A point of a cloud, as a real coordinate vector. -/
abbrev R3 := Fin 3 → ℝ

/-- The value `self.atoms.mean(axis=0)` computed by `SASModel.centroid`
(`model.py` lines 72-77) and stored into `self.com`: the arithmetic mean of
the atom coordinates, componentwise.  (Junk value `0` on an empty cloud,
where numpy produces `nan`; `centroid_run` models that case.) -/
noncomputable def centroid3 (ats : List R3) : R3 :=
  fun i => ((ats.map (fun p => p i)).sum) / ats.length

/-- The error taxonomy that `spec.md` §7 prescribes.  None of these exists in
`model.py`: no exception class is defined or raised anywhere in the module.
The constructors exist so that the spec's error-handling claims can be
stated against the code's actual behaviour. -/
inductive SpecError where
  | parseErr
  | emptyModelErr
  | degenerateModelErr
  | insufficientModelsErr
deriving DecidableEq

/-- Outcome of running one operation of `model.py`:
* `ok v`: normal return of value `v`;
* `nanValue`: numpy silently produced NaN(s) (e.g. `.mean(axis=0)` of an
  empty array, which only emits a `RuntimeWarning`);
* `pyError`: a genuine Python exception escaped (`IndexError`, `TypeError`,
  `ValueError`, ...);
* `specError e`: one of the spec's prescribed errors was raised — no code
  path below ever produces this. -/
inductive PyOutcome (α : Type) where
  | ok : α → PyOutcome α
  | nanValue : PyOutcome α
  | pyError : PyOutcome α
  | specError : SpecError → PyOutcome α

/-- Running `SASModel.centroid` (`model.py` lines 72-77): `self.atoms.mean(axis=0)`.
On a zero-atom cloud numpy's mean over axis 0 is `0/0`: it emits a
`RuntimeWarning` and silently stores a NaN vector (`nanValue`); no exception
is raised and no `EmptyModelError` exists in the module. -/
noncomputable def centroid_run (ats : List R3) : PyOutcome R3 :=
  if ats.length = 0 then PyOutcome.nanValue else PyOutcome.ok (centroid3 ats)

/-- Running `SASModel._calc_fineness` / the `fineness` property
(`model.py` lines 126-145).  On a zero-atom cloud `self.atoms[:,0]` raises
(`IndexError` on an empty numpy array, `TypeError` on the default list) —
modeled `pyError`.  On every nonempty cloud the computation returns normally:
in particular for a single atom the distance matrix is the 1×1 zero matrix
and the result is `sqrt(0) = 0.0`; no `DegenerateModelError` exists in the
module. -/
noncomputable def fineness_run (ats : List Q3) : PyOutcome ℝ :=
  if ats.length = 0 then PyOutcome.pyError else PyOutcome.ok (calcFineness ats)

/-- `SASModel.canonical_translate` (`model.py` lines 90-96): the homogeneous
4×4 matrix `numpy.identity(4)` with `trans[0:3,3] = -self.com`. -/
def canonical_translate_mat (com : R3) : Matrix (Fin 4) (Fin 4) ℝ :=
  !![1, 0, 0, -com 0;
     0, 1, 0, -com 1;
     0, 0, 1, -com 2;
     0, 0, 0, 1]

/-- The contract of `w, v = numpy.linalg.eigh(A)` for a real symmetric 3×3
matrix `A`: `w` is ascending and the columns of `v` are an orthonormal basis
of eigenvectors (`A @ v == v @ diag(w)`).  Which of the two opposite unit
eigenvectors is returned for each axis — and, for a repeated eigenvalue,
which orthonormal basis of its eigenspace — is *not* part of the contract:
`eigh` (LAPACK) is free to return any of them, so `det v` may be `-1`.
`eigh` is an external collaborator (numpy), so the embedding passes its
output in as data constrained by this contract. -/
def IsEighOutput (A : Matrix (Fin 3) (Fin 3) ℝ) (w : Fin 3 → ℝ)
    (v : Matrix (Fin 3) (Fin 3) ℝ) : Prop :=
  v.transpose * v = 1 ∧ A * v = v * Matrix.diagonal w ∧
    ∀ i j : Fin 3, i ≤ j → w i ≤ w j

/-- The contract of `w.argsort()` as `canonical_rotate` uses it: a permutation
`σ` such that `w ∘ σ` is ascending.  (numpy's default argsort is an unstable
introsort, so for tied values only monotonicity is guaranteed; since `eigh`
already returns `w` ascending, the identity permutation always satisfies
this.) -/
def SortsAscending (w : Fin 3 → ℝ) (σ : Equiv.Perm (Fin 3)) : Prop :=
  ∀ i j : Fin 3, i ≤ j → w (σ i) ≤ w (σ j)

/-- `SASModel.canonical_rotate` (`model.py` lines 98-109), given the output
`(w, v)` of `numpy.linalg.eigh(self.inertensor)` and a permutation
`σ = w.argsort()`: the code forms `mat = v[:, w.argsort()]` (columns permuted
by `σ`) and returns `mat.T` extended by a zero row and the homogeneous column
`(0,0,0,1)` (the two `numpy.append` calls of line 109).  Note the code never
inspects or corrects `numpy.linalg.det(mat)`. -/
def canonical_rotate_mat (v : Matrix (Fin 3) (Fin 3) ℝ) (σ : Equiv.Perm (Fin 3)) :
    Matrix (Fin 4) (Fin 4) ℝ :=
  let mat := v.submatrix id σ
  !![mat 0 0, mat 1 0, mat 2 0, 0;
     mat 0 1, mat 1 1, mat 2 1, 0;
     mat 0 2, mat 1 2, mat 2 2, 0;
     0, 0, 0, 1]

/-- `SASModel.inertiatensor` (`model.py` lines 79-88) with the stored centre
of mass `com`: over the centred coordinates `mol = atoms - com`,
`T[i,j] = (Σ_atoms (δ(i,j)·|r|² - r_i·r_j)) / n`.  The code fills `j ≥ i` and
mirrors; the summand is symmetric in `(i,j)`, so the entrywise definition
yields the same matrix. -/
noncomputable def inertiatensor (ats : List R3) (com : R3) : Matrix (Fin 3) (Fin 3) ℝ :=
  Matrix.of fun i j =>
    ((ats.map (fun p => (if i = j then (1:ℝ) else 0) * (∑ k : Fin 3, (p k - com k) ^ 2)
      - (p i - com i) * (p j - com j))).sum) / ats.length

/-- The homogeneous-coordinate row of ones appended in `canonical_position`
(`model.py` line 117): an atom `p` becomes the column `(p0, p1, p2, 1)`. -/
def homogenize (p : R3) : Fin 4 → ℝ := ![p 0, p 1, p 2, 1]

/-- `numpy.delete(mol, 3, axis=0)` (`model.py` line 121): drop the homogeneous
coordinate again. -/
def dehomogenize (q : Fin 4 → ℝ) : R3 := ![q 0, q 1, q 2]

/-- `SASModel.canonical_position` (`model.py` lines 111-123): each atom is
homogenized, multiplied by `canonical_translate()` and then by
`canonical_rotate()`, and dehomogenized; the result replaces `self.atoms`.
Parametrized by the `eigh` output `v` and argsort permutation `σ` feeding
`canonical_rotate`, and by the stored centre of mass `com` feeding
`canonical_translate`. -/
noncomputable def canonical_position (v : Matrix (Fin 3) (Fin 3) ℝ) (σ : Equiv.Perm (Fin 3))
    (com : R3) (ats : List R3) : List R3 :=
  ats.map (fun p => dehomogenize ((canonical_rotate_mat v σ).mulVec
    ((canonical_translate_mat com).mulVec (homogenize p))))

/-- The spec's scenario model `{(0,0,0),(1,0,0),(0,1,0),(0,0,1)}`. -/
def scenModel : List R3 := [![0,0,0], ![1,0,0], ![0,1,0], ![0,0,1]]

/-- A six-atom regular octahedron: a degenerate symmetric shape whose inertia
tensor is `(2/3)·I`, with one triply-repeated eigenvalue. -/
def octaModel : List R3 :=
  [![1,0,0], ![-1,0,0], ![0,1,0], ![0,-1,0], ![0,0,1], ![0,0,-1]]

/-- A valid `eigh` eigenvector matrix for `(2/3)·I` with determinant `-1`:
the orthonormal eigenbasis `(-e₀, e₁, e₂)`. -/
def eighVFlip : Matrix (Fin 3) (Fin 3) ℝ := Matrix.diagonal ![-1, 1, 1]

/-! ## Definitions: PDB reading and writing (`SASModel.read` / `SASModel.save`)

A text file is embedded as the list of its lines, each line a `List Char`
*including* its trailing newline, exactly as Python's file-line iteration
yields them; the byte content of the file is the concatenation (`flatten`)
of the lines. -/

/-- `line.startswith("ATOM")` (`model.py` lines 47 and 64). -/
def isATOM (L : List Char) : Bool := L.take 4 == ['A', 'T', 'O', 'M']

/-- The whitespace on which Python's no-argument `str.split()` splits. -/
def isPySpace (c : Char) : Bool :=
  c == ' ' || c == '\t' || c == '\n' || c == '\x0b' || c == '\x0c' || c == '\r'

/-- Worker for `pysplit`, carrying the reversed current field. -/
def pysplitGo : List Char → List Char → List (List Char)
  | acc, [] => if acc.isEmpty then [] else [acc.reverse]
  | acc, c :: r =>
    if isPySpace c then
      if acc.isEmpty then pysplitGo [] r else acc.reverse :: pysplitGo [] r
    else pysplitGo (c :: acc) r

/-- Python's no-argument `line.split()` (`model.py` line 48): split on runs of
whitespace, discarding empty fields. -/
def pysplit (cs : List Char) : List (List Char) := pysplitGo [] cs

/-- Value of a (checked-elsewhere) digit string. -/
def digitsToNat (ds : List Char) : ℕ :=
  ds.foldl (fun a c => 10 * a + (c.toNat - 48)) 0

/-- Python `float(s)` on an unsigned plain decimal: `digits`, `digits.`,
`.digits` or `digits.digits`.  (The builtin also accepts exponent forms,
`inf`/`nan` and surrounding whitespace, which fixed-column PDB coordinate
fields never use; on strings outside this grammar the embedding returns
`none` just as `float` raises `ValueError` on non-numeric fields.) -/
def parseUnsigned (cs : List Char) : Option ℚ :=
  let ip := cs.takeWhile Char.isDigit
  let rest := cs.dropWhile Char.isDigit
  match rest with
  | [] => if ip.isEmpty then none else some (digitsToNat ip)
  | '.' :: frac =>
      if frac.all Char.isDigit ∧ (¬ ip.isEmpty ∨ ¬ frac.isEmpty) then
        some ((digitsToNat ip : ℚ) + (digitsToNat frac : ℚ) / 10 ^ frac.length)
      else none
  | _ => none

/-- Python `float(s)`: optional sign, then an unsigned decimal. -/
def parseFloatQ : List Char → Option ℚ
  | '-' :: r => (parseUnsigned r).map (fun q => -q)
  | '+' :: r => parseUnsigned r
  | cs => parseUnsigned cs

/-- Reading one ATOM record (`model.py` lines 48-51): `args = line.split()`;
`x, y, z = float(args[6]), float(args[7]), float(args[8])`.  `none` models
the `IndexError` (fewer than 9 fields) or `ValueError` (non-numeric field)
that aborts `read`. -/
def parseAtomLine (L : List Char) : Option Q3 :=
  match (pysplit L).get? 6, (pysplit L).get? 7, (pysplit L).get? 8 with
  | some xs, some ys, some zs =>
      match parseFloatQ xs, parseFloatQ ys, parseFloatQ zs with
      | some x, some y, some z => some (x, y, z)
      | _, _, _ => none
  | _, _, _ => none

/-- The atom-extraction loop of `SASModel.read` (`model.py` lines 44-55):
every line goes into `self.header` verbatim (header = the full line list),
and each line starting with `"ATOM"` contributes one parsed coordinate
triple, in file order.  `none` if any ATOM line fails to parse. -/
def readAtoms : List (List Char) → Option (List Q3)
  | [] => some []
  | L :: r =>
      if isATOM L then
        match parseAtomLine L, readAtoms r with
        | some p, some rest => some (p :: rest)
        | _, _ => none
      else readAtoms r

/-- Decimal digits of a natural number, most significant first. -/
def natDigits (n : ℕ) : List Char := Nat.toDigits 10 n

/-- Pad a (at most 3-digit) number to exactly three digits with leading
zeros: the fractional part of `%.3f`. -/
def pad3 (n : ℕ) : List Char :=
  List.replicate (3 - (natDigits n).length) '0' ++ natDigits n

/-- C's `"%.3f"` as Python's `%`-formatting uses it: optional sign, integer
digits, `'.'`, exactly three fractional digits.  The embedding rounds
half-up on the third decimal; for the values the theorems exercise (PDB
coordinates carrying at most three decimals) no rounding occurs, so this is
exactly the float formatting. -/
def fmtF3 (q : ℚ) : List Char :=
  let m : ℕ := (Int.floor (|q| * 1000 + 1/2)).toNat
  let ds := natDigits (m / 1000) ++ '.' :: pad3 (m % 1000)
  if q < 0 then '-' :: ds else ds

/-- `"%8.3f" % x`: `fmtF3` right-justified to a minimum width of 8. -/
def fmt83 (q : ℚ) : List Char :=
  List.replicate (8 - (fmtF3 q).length) ' ' ++ fmtF3 q

/-- `line[:30] + "%8.3f%8.3f%8.3f" % tuple(self.atoms[nr]) + line[54:]`
(`model.py` line 66). -/
def substLine (L : List Char) (p : Q3) : List Char :=
  L.take 30 ++ fmt83 p.1 ++ fmt83 p.2.1 ++ fmt83 p.2.2 ++ L.drop 54

/-- The writing loop of `SASModel.save` (`model.py` lines 61-70), processing
the remaining header lines with the counter at `nr`: an ATOM line is written
with the coordinates of `atoms[nr]` substituted when `nr < len(atoms)` and is
replaced by the empty string otherwise; `nr` advances on ATOM lines only;
every other line is written verbatim.  No error is ever raised. -/
def saveFrom (atoms : List Q3) : ℕ → List (List Char) → List (List Char)
  | _, [] => []
  | nr, L :: rest =>
      if isATOM L then
        (match atoms[nr]? with
         | some a => substLine L a
         | none => []) :: saveFrom atoms (nr + 1) rest
      else L :: saveFrom atoms nr rest

/-- The behaviour claim C10 describes of `save`, written from the claim's
words (spec side, to be compared with `saveFrom`): substitute the atoms into
the ATOM records in original order, one atom per record — so only the first
`k` atoms are consumed when the header holds `k` ATOM records — and write
every non-ATOM line out verbatim.  (The middle case, an ATOM record with the
atoms exhausted, is unreachable under the claim's hypothesis of strictly
more atoms than records; it keeps the record verbatim.) -/
def specSave : List (List Char) → List Q3 → List (List Char)
  | [], _ => []
  | L :: r, [] => L :: specSave r []
  | L :: r, a :: ats' =>
      if isATOM L then substLine L a :: specSave r ats'
      else L :: specSave r (a :: ats')

/-- Number of ATOM records among the header lines. -/
def countATOM (ls : List (List Char)) : ℕ := ls.countP isATOM

/-- A well-formed PDB ATOM record: columns 0-29 are the standard prefix (the
serial, name, residue and chain fields), columns 30-53 hold exactly the
`%8.3f` renderings `   1.500   2.000   3.000`, and the tail holds an
occupancy column and the newline. -/
def wLine : List Char :=
  ("ATOM      1  CA  ASP A   1       1.500   2.000   3.000  1.00\n").toList

/-- A line that `read` accepts (it starts with `"ATOM"` and fields 6-8 of its
whitespace-split are the numbers 1, 2, 3) but that does not carry its
coordinates in the fixed columns 30-53 that `save` overwrites. -/
def cexBadLine : List Char := ("ATOM 0 X X X 0 1 2 3\n").toList

/-- A non-ATOM header line. -/
def hdrLine : List Char := ("HEADER test\n").toList

/-- A header with one non-ATOM line and a single ATOM record. -/
def w10File : List (List Char) := [hdrLine, cexBadLine]

/-! ## Theorems: basic facts about the embedded operations -/

theorem sqdist_nonneg (a b : Q3) : 0 ≤ sqdist a b := by
  unfold sqdist; positivity

theorem sqdist_comm (a b : Q3) : sqdist a b = sqdist b a := by
  unfold sqdist; ring

theorem sqdist_self (a : Q3) : sqdist a a = 0 := by
  unfold sqdist; ring

theorem listMin_le {l : List ℚ} {x : ℚ} (hx : x ∈ l) : listMin l ≤ x := by
  induction l with
  | nil => cases hx
  | cons y r ih =>
      rcases r with _ | ⟨z, r'⟩
      · simp only [List.mem_singleton] at hx
        subst hx; exact le_refl _
      · rcases List.mem_cons.mp hx with h | h
        · subst h; exact min_le_left _ _
        · exact le_trans (min_le_right _ _) (ih h)

theorem listMin_nonneg {l : List ℚ} (h : ∀ x ∈ l, 0 ≤ x) : 0 ≤ listMin l := by
  induction l with
  | nil => exact le_refl 0
  | cons y r ih =>
      rcases r with _ | ⟨z, r'⟩
      · exact h y (List.mem_singleton.mpr rfl)
      · exact le_min (h y (List.mem_cons_self _ _))
          (ih (fun x hx => h x (List.mem_cons_of_mem _ hx)))

theorem listMax_ge {l : List ℚ} {x : ℚ} (hx : x ∈ l) : x ≤ listMax l := by
  induction l with
  | nil => cases hx
  | cons y r ih =>
      rcases r with _ | ⟨z, r'⟩
      · simp only [List.mem_singleton] at hx
        subst hx; exact le_refl _
      · rcases List.mem_cons.mp hx with h | h
        · subst h; exact le_max_left _ _
        · exact le_trans (ih h) (le_max_right _ _)

/-- If some member of `l` is `≤ c` then `listMin l ≤ c`. -/
theorem listMin_le_of_mem_le {l : List ℚ} {x c : ℚ} (hx : x ∈ l) (hxc : x ≤ c) :
    listMin l ≤ c :=
  le_trans (listMin_le hx) hxc

theorem listMin_mem {l : List ℚ} (h : l ≠ []) : listMin l ∈ l := by
  induction l with
  | nil => exact absurd rfl h
  | cons x r ih =>
      rcases r with _ | ⟨y, r'⟩
      · exact List.mem_singleton.mpr rfl
      · show min x (listMin (y :: r')) ∈ x :: y :: r'
        rcases le_total x (listMin (y :: r')) with hc | hc
        · rw [min_eq_left hc]; exact List.mem_cons_self _ _
        · rw [min_eq_right hc]; exact List.mem_cons_of_mem _ (ih (by simp))

theorem fineness_sq_nonneg (ats : List Q3) : 0 ≤ fineness_sq ats := by
  unfold fineness_sq
  have hM : 0 ≤ listMax (ats.map (fun ai => listMax (ats.map (fun aj => sqdist ai aj)))) := by
    rcases ats with _ | ⟨a, r⟩
    · exact le_refl 0
    · refine le_trans ?_ (listMax_ge (List.mem_map_of_mem _ (List.mem_cons_self a r)))
      refine le_trans ?_ (listMax_ge (List.mem_map_of_mem _ (List.mem_cons_self a r)))
      exact sqdist_nonneg a a
  apply div_nonneg _ (Nat.cast_nonneg _)
  apply List.sum_nonneg
  intro x hx
  simp only [List.mem_map] at hx
  obtain ⟨ja, _, rfl⟩ := hx
  apply listMin_nonneg
  intro y hy
  simp only [List.mem_map] at hy
  obtain ⟨ia, _, rfl⟩ := hy
  have := sqdist_nonneg ia.2 ja.2
  split <;> [exact add_nonneg hM this; exact add_nonneg (le_refl 0) this]

theorem calcFineness_nonneg (ats : List Q3) : 0 ≤ calcFineness ats :=
  Real.sqrt_nonneg _

/-- The float fineness is zero exactly when the exact squared fineness is:
justifies the form of the zero-fineness guard in `dist`. -/
theorem calcFineness_eq_zero_iff (ats : List Q3) :
    calcFineness ats = 0 ↔ fineness_sq ats = 0 := by
  unfold calcFineness
  rw [Real.sqrt_eq_zero']
  constructor
  · intro h
    exact le_antisymm (by exact_mod_cast h) (fineness_sq_nonneg ats)
  · intro h
    rw [h]
    simp

theorem euclid_sq (a b : Q3) : euclid a b ^ 2 = ((sqdist a b : ℚ) : ℝ) := by
  unfold euclid sqdist
  rw [Real.sq_sqrt (by positivity)]
  push_cast
  ring

theorem euclid_cast (a b : Q3) : euclid a b = Real.sqrt ((sqdist a b : ℚ) : ℝ) := by
  unfold euclid sqdist
  congr 1
  push_cast
  ring

theorem cast_listMin (l : List ℚ) :
    ((listMin l : ℚ) : ℝ) = listMinR (l.map (fun q => ((q : ℚ) : ℝ))) := by
  induction l with
  | nil => simp [listMin, listMinR]
  | cons x r ih =>
      rcases r with _ | ⟨y, r'⟩
      · simp [listMin, listMinR]
      · show ((min x (listMin (y :: r')) : ℚ) : ℝ) = min ((x : ℚ) : ℝ) (listMinR _)
        rw [Rat.cast_min, ih]
        rfl

theorem cast_listSum (l : List ℚ) :
    ((l.sum : ℚ) : ℝ) = (l.map (fun q => ((q : ℚ) : ℝ))).sum := by
  induction l with
  | nil => simp
  | cons x r ih => simp [ih]

/-- The spec-side inner sum `Σ_{a∈A} min_{b∈B} d(a,b)^2` is the cast of the
code-side rational `d2.min(axis=1).sum()`. -/
theorem specSum_axis1 (A B : List Q3) :
    (A.map (fun a => listMinR (B.map (fun b => euclid a b ^ 2)))).sum
      = ((sumMinAxis1 A B : ℚ) : ℝ) := by
  rw [sumMinAxis1, cast_listSum, List.map_map]
  congr 1
  apply List.map_congr_left
  intro a _
  show listMinR (B.map fun b => euclid a b ^ 2)
      = ((listMin (B.map fun b => sqdist a b) : ℚ) : ℝ)
  rw [cast_listMin, List.map_map]
  congr 1
  apply List.map_congr_left
  intro b _
  exact euclid_sq a b

/-- The spec-side inner sum `Σ_{b∈B} min_{a∈A} d(a,b)^2` is the cast of the
code-side rational `d2.min(axis=0).sum()`. -/
theorem specSum_axis0 (A B : List Q3) :
    (B.map (fun b => listMinR (A.map (fun a => euclid a b ^ 2)))).sum
      = ((sumMinAxis0 A B : ℚ) : ℝ) := by
  rw [sumMinAxis0, cast_listSum, List.map_map]
  congr 1
  apply List.map_congr_left
  intro b _
  show listMinR (A.map fun a => euclid a b ^ 2)
      = ((listMin (A.map fun a => sqdist a b) : ℚ) : ℝ)
  rw [cast_listMin, List.map_map]
  congr 1
  apply List.map_congr_left
  intro a _
  exact euclid_sq a b

/-- Masking the entries of a list at the positions satisfying `p` with a value
`M` that dominates every entry, where the entries at the masked positions are
`0`, leaves the minimum of the *other* entries: this is why the
`D.max()*numpy.eye(n) + D` trick in `_calc_fineness` computes the
nearest-*other*-atom minimum. -/
theorem listMin_mask {α : Type} (l : List α) (p : α → Prop) [DecidablePred p]
    (f : α → ℚ) (M : ℚ)
    (hM : ∀ x ∈ l, f x ≤ M) (hp : ∀ x ∈ l, p x → f x = 0)
    (hne : l.filter (fun x => ¬ p x) ≠ []) :
    listMin (l.map (fun x => (if p x then M else 0) + f x))
      = listMin ((l.filter (fun x => ¬ p x)).map f) := by
  have hlne : l ≠ [] := by
    intro h; subst h; simp at hne
  have hfil : (l.filter (fun x => ¬ p x)).map f ≠ [] := by
    simpa using hne
  have hmap : l.map (fun x => (if p x then M else 0) + f x) ≠ [] := by
    simpa using hlne
  apply le_antisymm
  · have hmem := listMin_mem hfil
    simp only [List.mem_map] at hmem
    obtain ⟨x0, hx0f, heq⟩ := hmem
    have hx0l : x0 ∈ l := List.mem_of_mem_filter hx0f
    have hnotp : ¬ p x0 := by
      have := (List.mem_filter.mp hx0f).2
      simpa using this
    rw [← heq]
    calc listMin (l.map (fun x => (if p x then M else 0) + f x))
        ≤ (if p x0 then M else 0) + f x0 := listMin_le (List.mem_map_of_mem _ hx0l)
      _ = f x0 := by rw [if_neg hnotp]; ring
  · have hmem := listMin_mem hmap
    simp only [List.mem_map] at hmem
    obtain ⟨x1, hx1, heq⟩ := hmem
    rw [← heq]
    by_cases hpx : p x1
    · rw [if_pos hpx, hp x1 hx1 hpx, add_zero]
      have hmem2 := listMin_mem hfil
      simp only [List.mem_map] at hmem2
      obtain ⟨x0, hx0f, heq2⟩ := hmem2
      rw [← heq2]
      exact hM x0 (List.mem_of_mem_filter hx0f)
    · rw [if_neg hpx, zero_add]
      apply listMin_le
      apply List.mem_map_of_mem
      rw [List.mem_filter]
      exact ⟨hx1, by simpa using hpx⟩

/-- What `_calc_fineness`'s masked-diagonal trick computes: the mean of the
per-atom minimum *squared* distance to the other atoms.  Needs at least two
atoms (with a single atom there is no other atom, and with none the Python
code raises). -/
theorem fineness_sq_eq_nn (ats : List Q3) (h2 : 2 ≤ ats.length) :
    fineness_sq ats = (nnsqList ats).sum / ats.length := by
  rw [fineness_sq, nnsqList]
  congr 2
  apply List.map_congr_left
  intro ja hja
  have hja1 : ats[ja.1]? = some ja.2 := List.mem_enum_iff_getElem?.mp hja
  have hjalt : ja.1 < ats.length := by
    by_contra hc
    rw [List.getElem?_eq_none (by omega)] at hja1
    cases hja1
  refine listMin_mask ats.enum (fun ia => ia.1 = ja.1) (fun ia => sqdist ia.2 ja.2) _ ?_ ?_ ?_
  · intro ia hia
    show sqdist ia.2 ja.2 ≤ _
    have hia1 : ats[ia.1]? = some ia.2 := List.mem_enum_iff_getElem?.mp hia
    have hiamem : ia.2 ∈ ats := by
      have hlt : ia.1 < ats.length := by
        by_contra hc
        rw [List.getElem?_eq_none (by omega)] at hia1
        cases hia1
      have := List.getElem?_eq_getElem hlt
      rw [this] at hia1
      exact (Option.some_inj.mp hia1) ▸ List.getElem_mem hlt
    have hjamem : ja.2 ∈ ats := by
      have := List.getElem?_eq_getElem hjalt
      rw [this] at hja1
      exact (Option.some_inj.mp hja1) ▸ List.getElem_mem hjalt
    calc sqdist ia.2 ja.2 ≤ listMax (ats.map (fun aj => sqdist ia.2 aj)) :=
          listMax_ge (List.mem_map_of_mem _ hjamem)
      _ ≤ _ := listMax_ge
          (List.mem_map_of_mem (fun ai => listMax (ats.map (fun aj => sqdist ai aj))) hiamem)
  · intro ia hia hieq
    show sqdist ia.2 ja.2 = 0
    have hia1 : ats[ia.1]? = some ia.2 := List.mem_enum_iff_getElem?.mp hia
    rw [hieq, hja1] at hia1
    have hia2 : ia.2 = ja.2 := (Option.some_inj.mp hia1).symm
    rw [hia2]
    exact sqdist_self ja.2
  · set k : ℕ := if ja.1 = 0 then 1 else 0 with hk
    have hklt : k < ats.length := by
      rw [hk]; split <;> omega
    have hkne : ¬ (k = ja.1) := by
      rw [hk]; split <;> omega
    apply List.ne_nil_of_mem (a := (k, ats[k]))
    rw [List.mem_filter]
    constructor
    · exact List.mem_enum_iff_getElem?.mpr (List.getElem?_eq_getElem hklt)
    · simpa using hkne

/-- Every per-atom minimum in `d2.min(axis=1)` vanishes when the two clouds
are identical: each atom finds itself at distance zero. -/
theorem sumMinAxis1_self (A : List Q3) : sumMinAxis1 A A = 0 := by
  unfold sumMinAxis1
  apply List.sum_eq_zero
  intro x hx
  simp only [List.mem_map] at hx
  obtain ⟨a, ha, rfl⟩ := hx
  refine le_antisymm (listMin_le_of_mem_le (List.mem_map_of_mem _ ha)
    (le_of_eq (sqdist_self a))) (listMin_nonneg ?_)
  intro y hy
  simp only [List.mem_map] at hy
  obtain ⟨b, _, rfl⟩ := hy
  exact sqdist_nonneg a b

theorem sumMinAxis0_swap (A B : List Q3) : sumMinAxis0 A B = sumMinAxis1 B A := by
  unfold sumMinAxis0 sumMinAxis1
  congr 1
  apply List.map_congr_left
  intro b _
  congr 1
  apply List.map_congr_left
  intro a _
  exact sqdist_comm a b

/-! ## Theorems: evaluations at the concrete models -/

theorem fineness_sq_cex3 : fineness_sq cex3 = 2 := by
  norm_num [cex3, fineness_sq, listMax, listMin, sqdist, List.enum, List.enumFrom]

theorem fineness_sq_cexDup : fineness_sq cexDup = 0 := by
  norm_num [cexDup, fineness_sq, listMax, listMin, sqdist, List.enum, List.enumFrom]

theorem fineness_sq_pairA : fineness_sq pairA = 1 := by
  norm_num [pairA, fineness_sq, listMax, listMin, sqdist, List.enum, List.enumFrom]

theorem fineness_sq_pairB : fineness_sq pairB = 4 := by
  norm_num [pairB, fineness_sq, listMax, listMin, sqdist, List.enum, List.enumFrom]

theorem calcFineness_pairA_ne_zero : calcFineness pairA ≠ 0 := by
  rw [Ne, calcFineness_eq_zero_iff, fineness_sq_pairA]
  norm_num

theorem calcFineness_pairB_ne_zero : calcFineness pairB ≠ 0 := by
  rw [Ne, calcFineness_eq_zero_iff, fineness_sq_pairB]
  norm_num

theorem calcFineness_cex3_ne_zero : calcFineness cex3 ≠ 0 := by
  rw [Ne, calcFineness_eq_zero_iff, fineness_sq_cex3]
  norm_num

theorem calcFineness_cex3 : calcFineness cex3 = Real.sqrt 2 := by
  rw [calcFineness, fineness_sq_cex3]
  norm_num

theorem specFineness_cex3 : specFineness cex3 = 4 / 3 := by
  rw [specFineness]
  simp only [cex3, List.enum, List.enumFrom, List.filter, List.map, euclid_cast]
  norm_num [listMinR, sqdist]
  rw [show (4:ℝ) = 2 ^ 2 by norm_num, Real.sqrt_sq (by norm_num : (0:ℝ) ≤ 2)]
  norm_num

/-! ## Theorems: the claims -/

/-- **C1**: for models `A`, `B` with at least two atoms each and nonzero
stored fineness values, the pure-Python `SASModel.dist` returns exactly the
specification's formula
`sqrt( 0.5 * ( (1/(|A|*f(B)^2)) * Σ_{a∈A} min_{b∈B} d(a,b)^2
             + (1/(|B|*f(A)^2)) * Σ_{b∈B} min_{a∈A} d(a,b)^2 ) )`
(`specNSD`), and the result is a nonnegative real. -/
theorem dist_matches_spec_formula (A B : List Q3)
    (hA : 2 ≤ A.length) (hB : 2 ≤ B.length)
    (hfA : calcFineness A ≠ 0) (hfB : calcFineness B ≠ 0) :
    dist A B = some (specNSD A B) ∧ 0 ≤ specNSD A B := by
  have hqA : fineness_sq A ≠ 0 := fun h => hfA ((calcFineness_eq_zero_iff A).mpr h)
  have hqB : fineness_sq B ≠ 0 := fun h => hfB ((calcFineness_eq_zero_iff B).mpr h)
  have hlA : A.length ≠ 0 := by omega
  have hlB : B.length ≠ 0 := by omega
  refine ⟨?_, Real.sqrt_nonneg _⟩
  unfold dist
  rw [if_neg (by push_neg; exact ⟨hlA, hlB⟩), if_neg (by push_neg; exact ⟨hqA, hqB⟩)]
  unfold specNSD
  congr 2
  rw [specSum_axis1 A B, specSum_axis0 A B]
  ring

/-- Witness for C1 at the concrete two-atom models `pairA`, `pairB`. -/
theorem dist_matches_spec_formula_witness :
    2 ≤ pairA.length ∧ 2 ≤ pairB.length ∧
      calcFineness pairA ≠ 0 ∧ calcFineness pairB ≠ 0 ∧
      (dist pairA pairB = some (specNSD pairA pairB) ∧ 0 ≤ specNSD pairA pairB) :=
  ⟨by norm_num [pairA], by norm_num [pairB],
    calcFineness_pairA_ne_zero, calcFineness_pairB_ne_zero,
    dist_matches_spec_formula pairA pairB (by norm_num [pairA]) (by norm_num [pairB])
      calcFineness_pairA_ne_zero calcFineness_pairB_ne_zero⟩

/-- **C2, counterexample**: on the three collinear atoms `(0,0,0), (1,0,0),
(3,0,0)` the pure-Python `_calc_fineness` returns `sqrt 2 ≈ 1.414` (the root
of the *mean of squared* nearest-other-atom distances `(1+1+4)/3 = 2`),
while the claimed "arithmetic mean of the Euclidean distances to the nearest
other atom" is `(1+1+2)/3 = 4/3 ≈ 1.333`.  The two disagree. -/
theorem calc_fineness_not_mean_nn_distance :
    calcFineness cex3 ≠ specFineness cex3 := by
  rw [calcFineness_cex3, specFineness_cex3]
  intro h
  have h2 : (Real.sqrt 2) ^ 2 = ((4:ℝ)/3) ^ 2 := by rw [h]
  rw [Real.sq_sqrt (by norm_num : (0:ℝ) ≤ 2)] at h2
  norm_num at h2

/-- **C2, amended**: for every model with at least two atoms, the pure-Python
`_calc_fineness` returns the square root of the arithmetic mean, over each
atom, of the *squared* Euclidean distance to its nearest other atom in the
same model (the zero self-distance excluded) — i.e. the root-mean-square
nearest-other-atom distance, not the arithmetic mean of those distances. -/
theorem calc_fineness_rms_nn_distance (ats : List Q3) (h2 : 2 ≤ ats.length) :
    calcFineness ats = Real.sqrt (((nnsqList ats).sum : ℚ) / (ats.length : ℝ)) := by
  rw [calcFineness, fineness_sq_eq_nn ats h2]
  congr 1
  push_cast
  ring

/-- Witness for the amended C2 at the three-atom model `cex3`. -/
theorem calc_fineness_rms_nn_distance_witness :
    2 ≤ cex3.length ∧
      calcFineness cex3 = Real.sqrt (((nnsqList cex3).sum : ℚ) / (cex3.length : ℝ)) :=
  ⟨by norm_num [cex3], calc_fineness_rms_nn_distance cex3 (by norm_num [cex3])⟩

/-- **C4, counterexample**: `cexDup` has two atoms (so "at least two atoms"
holds), but both coincide, so its fineness is exactly `0.0`; in
`dist(A, A)` the coefficient `1./(n*0.0*0.0)` is `inf`, the sums of minima
are `0.0`, and `inf * 0.0` is `nan`: the result (modeled `none`) is not `0`. -/
theorem dist_self_coincident_not_zero :
    cexDup.length = 2 ∧ dist cexDup cexDup ≠ some 0 := by
  refine ⟨rfl, ?_⟩
  rw [dist, if_neg (by norm_num [cexDup]), if_pos (Or.inl fineness_sq_cexDup)]
  simp

/-- **C4, amended**: for every model with at least two atoms and *nonzero*
fineness, the discrepancy of the model with a model holding identical atoms
is exactly `0`. -/
theorem dist_self_eq_zero (A : List Q3) (h2 : 2 ≤ A.length)
    (hf : calcFineness A ≠ 0) :
    dist A A = some 0 := by
  have hq : fineness_sq A ≠ 0 := fun h => hf ((calcFineness_eq_zero_iff A).mpr h)
  have hl : A.length ≠ 0 := by omega
  rw [dist, if_neg (by push_neg; exact ⟨hl, hl⟩), if_neg (by push_neg; exact ⟨hq, hq⟩),
    sumMinAxis0_swap, sumMinAxis1_self]
  norm_num

/-- Witness for the amended C4 at the two-atom model `pairA`. -/
theorem dist_self_eq_zero_witness :
    2 ≤ pairA.length ∧ calcFineness pairA ≠ 0 ∧ dist pairA pairA = some 0 :=
  ⟨by norm_num [pairA], calcFineness_pairA_ne_zero,
    dist_self_eq_zero pairA (by norm_num [pairA]) calcFineness_pairA_ne_zero⟩

/-- **C5**: for models `A`, `B` with at least two atoms each and nonzero
fineness, the pure-Python `SASModel.dist` is symmetric:
`dist(A,B) = dist(B,A)` (exactly, not merely within tolerance: the two
radicands are the same real number with the summands exchanged). -/
theorem dist_symm (A B : List Q3)
    (hA : 2 ≤ A.length) (hB : 2 ≤ B.length)
    (hfA : calcFineness A ≠ 0) (hfB : calcFineness B ≠ 0) :
    dist A B = dist B A := by
  have hqA : fineness_sq A ≠ 0 := fun h => hfA ((calcFineness_eq_zero_iff A).mpr h)
  have hqB : fineness_sq B ≠ 0 := fun h => hfB ((calcFineness_eq_zero_iff B).mpr h)
  have hlA : A.length ≠ 0 := by omega
  have hlB : B.length ≠ 0 := by omega
  rw [dist, dist, if_neg (by push_neg; exact ⟨hlA, hlB⟩),
    if_neg (by push_neg; exact ⟨hqA, hqB⟩), if_neg (by push_neg; exact ⟨hlB, hlA⟩),
    if_neg (by push_neg; exact ⟨hqB, hqA⟩)]
  congr 2
  rw [sumMinAxis0_swap A B, sumMinAxis0_swap B A]
  ring

/-- Witness for C5 at the concrete two-atom models `pairA`, `pairB`. -/
theorem dist_symm_witness :
    2 ≤ pairA.length ∧ 2 ≤ pairB.length ∧
      calcFineness pairA ≠ 0 ∧ calcFineness pairB ≠ 0 ∧
      dist pairA pairB = dist pairB pairA :=
  ⟨by norm_num [pairA], by norm_num [pairB],
    calcFineness_pairA_ne_zero, calcFineness_pairB_ne_zero,
    dist_symm pairA pairB (by norm_num [pairA]) (by norm_num [pairB])
      calcFineness_pairA_ne_zero calcFineness_pairB_ne_zero⟩

/-- **C6, counterexample**: computing the centroid of the zero-atom model
does *not* fail with `EmptyModelError` (no such error exists in `model.py`);
numpy's mean over the empty axis silently produces the NaN vector. -/
theorem centroid_empty_no_empty_model_error :
    centroid_run ([] : List R3) = PyOutcome.nanValue ∧
      centroid_run ([] : List R3) ≠ PyOutcome.specError SpecError.emptyModelErr := by
  constructor
  · rfl
  · intro h
    rw [centroid_run] at h
    simp at h

/-- **C6, amended**: computing the centroid of a model with zero atoms
silently produces the undefined/NaN centroid (a `RuntimeWarning` at most);
no exception — in particular no `EmptyModelError` — is raised. -/
theorem centroid_empty_nan : centroid_run ([] : List R3) = PyOutcome.nanValue := rfl

theorem fineness_sq_single (p : Q3) : fineness_sq [p] = 0 := by
  simp [fineness_sq, List.enum, List.enumFrom, listMax, listMin, sqdist_self]

theorem calcFineness_single (p : Q3) : calcFineness [p] = 0 := by
  rw [calcFineness, fineness_sq_single]
  simp

/-- **C7, counterexample**: computing the fineness of a one-atom model does
*not* fail with `DegenerateModelError` (no such error exists in `model.py`):
`_calc_fineness` on the single atom `(0,0,0)` returns `0.0` normally (the
1×1 distance matrix is `[[0]]`, its masked minimum is `0`). -/
theorem fineness_single_atom_no_degenerate_error :
    fineness_run [((0:ℚ), 0, 0)] = PyOutcome.ok 0 ∧
      fineness_run [((0:ℚ), 0, 0)] ≠ PyOutcome.specError SpecError.degenerateModelErr := by
  constructor
  · rw [fineness_run]
    simp [calcFineness_single]
  · intro h
    rw [fineness_run] at h
    simp at h

/-- **C7, amended**: for every one-atom model the fineness computation
returns `0.0` normally instead of failing: the masked 1×1 distance matrix
`D.max()*eye(1) + D` is `[[0]]`, so `_calc_fineness` returns `sqrt(0)`.
No `DegenerateModelError` (or any exception) is raised. -/
theorem fineness_single_atom_zero (p : Q3) : fineness_run [p] = PyOutcome.ok 0 := by
  rw [fineness_run]
  simp [calcFineness_single]

/-! ## Theorems: the canonical pose -/

theorem centroid3_octa : centroid3 octaModel = (fun _ => 0) := by
  funext i
  fin_cases i <;>
    simp [centroid3, octaModel]

theorem inertia_octa :
    inertiatensor octaModel (fun _ => 0) = Matrix.diagonal (fun _ => (2:ℝ)/3) := by
  ext i j
  fin_cases i <;> fin_cases j <;>
    simp [inertiatensor, octaModel, Fin.sum_univ_three, Matrix.diagonal] <;> norm_num

theorem eigh_flip_valid :
    IsEighOutput (inertiatensor octaModel (fun _ => 0)) (fun _ => (2:ℝ)/3) eighVFlip := by
  refine ⟨?_, ?_, ?_⟩
  · ext i j
    fin_cases i <;> fin_cases j <;>
      simp [eighVFlip, Matrix.mul_apply, Matrix.diagonal, Matrix.transpose,
        Fin.sum_univ_three, Matrix.one_apply]
  · rw [inertia_octa, eighVFlip, Matrix.diagonal_mul_diagonal, Matrix.diagonal_mul_diagonal]
    have h : (fun i => (2:ℝ)/3 * ![-1, 1, 1] i) = (fun i => ![-1, 1, 1] i * ((2:ℝ)/3)) :=
      funext (fun i => mul_comm _ _)
    rw [h]
  · intro i j _
    exact le_refl _

theorem sorts_ascending_refl_const :
    SortsAscending (fun _ => (2:ℝ)/3) (Equiv.refl (Fin 3)) := by
  intro i j _
  exact le_refl _

theorem det_flip : (canonical_rotate_mat eighVFlip (Equiv.refl (Fin 3))).det = -1 := by
  have h : canonical_rotate_mat eighVFlip (Equiv.refl (Fin 3)) =
      !![-1, 0, 0, 0; 0, 1, 0, 0; 0, 0, 1, 0; 0, 0, 0, 1] := by
    rw [canonical_rotate_mat]
    simp [eighVFlip, Matrix.submatrix, Matrix.diagonal]
  rw [h]
  simp [Matrix.det_succ_row_zero, Fin.sum_univ_succ]

/-- **C3**: the claim "the canonical rotation matrix has determinant exactly
+1 for every input inertia tensor, including degenerate symmetric shapes" is
a bug in the code (the docstring of `canonical_rotate`, line 101, promises
"a matrix with a determinant = 1", and the test suite asserts it).  The code
never corrects the sign of the eigenbasis that `numpy.linalg.eigh` returns:
for the octahedron model — a degenerate symmetric shape whose inertia tensor
is `(2/3)·I` — the orthonormal eigenbasis `(-e₀, e₁, e₂)` is a valid `eigh`
output (with ascending eigenvalues, and the identity a valid `argsort`
result), and on it `canonical_rotate` returns a matrix of determinant `-1`:
an improper rotation. -/
theorem canonical_rotate_det_bug :
    centroid3 octaModel = (fun _ => 0) ∧
    inertiatensor octaModel (fun _ => 0) = Matrix.diagonal (fun _ => (2:ℝ)/3) ∧
    IsEighOutput (inertiatensor octaModel (fun _ => 0)) (fun _ => (2:ℝ)/3) eighVFlip ∧
    SortsAscending (fun _ => (2:ℝ)/3) (Equiv.refl (Fin 3)) ∧
    (canonical_rotate_mat eighVFlip (Equiv.refl (Fin 3))).det = -1 :=
  ⟨centroid3_octa, inertia_octa, eigh_flip_valid, sorts_ascending_refl_const, det_flip⟩

theorem translate_mulVec (com : R3) (p : R3) :
    (canonical_translate_mat com).mulVec (homogenize p)
      = homogenize (fun k => p k - com k) := by
  funext i
  fin_cases i <;>
    simp [canonical_translate_mat, homogenize, Matrix.mulVec, Matrix.dotProduct,
      Fin.sum_univ_four] <;> ring

/-- What one pass of `canonical_position` does to one atom: translate by
`-com`, then apply the 3×3 block `mat.T` of the canonical rotation. -/
theorem canonical_position_apply (v : Matrix (Fin 3) (Fin 3) ℝ) (σ : Equiv.Perm (Fin 3))
    (com : R3) (p : R3) :
    dehomogenize ((canonical_rotate_mat v σ).mulVec
        ((canonical_translate_mat com).mulVec (homogenize p)))
      = fun i : Fin 3 => ∑ j : Fin 3, (v.submatrix id σ).transpose i j * (p j - com j) := by
  rw [translate_mulVec]
  funext i
  fin_cases i <;>
    simp [canonical_rotate_mat, homogenize, dehomogenize, Matrix.mulVec, Matrix.dotProduct,
      Fin.sum_univ_four, Fin.sum_univ_three, Matrix.transpose_apply]

theorem list_sum_finset_sum {α : Type} (l : List α) (g : α → Fin 3 → ℝ) :
    (l.map (fun p => ∑ j : Fin 3, g p j)).sum = ∑ j : Fin 3, (l.map (fun p => g p j)).sum := by
  induction l with
  | nil => simp
  | cons x r ih => simp [ih, Finset.sum_add_distrib]

theorem list_sum_map_mul_left {α : Type} (l : List α) (c : ℝ) (f : α → ℝ) :
    (l.map (fun x => c * f x)).sum = c * (l.map f).sum := by
  induction l with
  | nil => simp
  | cons x r ih => simp [ih, mul_add]

theorem list_sum_map_sub {α : Type} (l : List α) (f g : α → ℝ) :
    (l.map (fun x => f x - g x)).sum = (l.map f).sum - (l.map g).sum := by
  induction l with
  | nil => simp
  | cons x r ih => simp [ih]; ring

/-- Centring at the centroid makes every coordinate sum vanish. -/
theorem centered_sum_zero (ats : List R3) (hne : ats ≠ []) (j : Fin 3) :
    (ats.map (fun p => p j - centroid3 ats j)).sum = 0 := by
  rw [list_sum_map_sub]
  have hn : (ats.length : ℝ) ≠ 0 :=
    Nat.cast_ne_zero.mpr (List.length_pos.mpr hne).ne'
  rw [show (ats.map (fun _ => centroid3 ats j)).sum = ats.length * centroid3 ats j by
    rw [List.map_const', List.sum_replicate, nsmul_eq_mul]]
  rw [centroid3]
  field_simp

/-- Applying the canonical pose with the true centroid as the stored `com`
recentres the cloud at the origin, whatever eigenbasis `eigh` returned: the
3×3 rotation block is linear, so it maps the zero mean to zero. -/
theorem centroid_canonical_position (v : Matrix (Fin 3) (Fin 3) ℝ) (σ : Equiv.Perm (Fin 3))
    (ats : List R3) (hne : ats ≠ []) :
    centroid3 (canonical_position v σ (centroid3 ats) ats) = (fun _ => 0) := by
  funext i
  rw [canonical_position]
  rw [List.map_congr_left (fun p _ => canonical_position_apply v σ (centroid3 ats) p)]
  rw [centroid3]
  simp only [List.map_map, List.length_map]
  have hcomp : ((fun p : R3 => p i) ∘ fun p (i' : Fin 3) => ∑ j : Fin 3,
        (v.submatrix id σ).transpose i' j * (p j - centroid3 ats j))
      = fun p : R3 => ∑ j : Fin 3,
        (v.submatrix id σ).transpose i j * (p j - centroid3 ats j) := rfl
  rw [hcomp, list_sum_finset_sum]
  have hz : ∀ j : Fin 3, (ats.map (fun p =>
      (v.submatrix id σ).transpose i j * (p j - centroid3 ats j))).sum = 0 := by
    intro j
    rw [list_sum_map_mul_left, centered_sum_zero ats hne j, mul_zero]
  rw [Finset.sum_congr rfl (fun j _ => hz j)]
  simp

theorem centroid3_scen : centroid3 scenModel = ![(1:ℝ)/4, 1/4, 1/4] := by
  funext i
  fin_cases i <;> simp [centroid3, scenModel]

/-- **C9**: for every nonempty model whose stored `com` is its true centroid
(i.e. `centroid()` was run, as `canonical_position` requires), applying the
canonical pose — canonical translation followed by canonical rotation, for
*any* eigenbasis `v` and argsort permutation `σ` — yields atoms whose
recomputed centroid is the zero vector; and the spec's scenario model
`{(0,0,0),(1,0,0),(0,1,0),(0,0,1)}` has centroid `(0.25, 0.25, 0.25)`. -/
theorem canonical_position_centroid_zero (v : Matrix (Fin 3) (Fin 3) ℝ)
    (σ : Equiv.Perm (Fin 3)) (com : R3) (ats : List R3)
    (hne : ats ≠ []) (hcom : com = centroid3 ats) :
    centroid3 (canonical_position v σ com ats) = (fun _ => 0) ∧
      centroid3 scenModel = ![(1:ℝ)/4, 1/4, 1/4] := by
  constructor
  · rw [hcom]
    exact centroid_canonical_position v σ ats hne
  · exact centroid3_scen

/-- Witness for C9: the scenario model itself, posed with its centroid
`(1/4, 1/4, 1/4)` and the identity eigenbasis. -/
theorem canonical_position_centroid_zero_witness :
    scenModel ≠ [] ∧ (![(1:ℝ)/4, 1/4, 1/4] : R3) = centroid3 scenModel ∧
      (centroid3 (canonical_position 1 (Equiv.refl (Fin 3))
          ![(1:ℝ)/4, 1/4, 1/4] scenModel) = (fun _ => 0) ∧
        centroid3 scenModel = ![(1:ℝ)/4, 1/4, 1/4]) :=
  ⟨by simp [scenModel], centroid3_scen.symm,
    canonical_position_centroid_zero 1 (Equiv.refl (Fin 3)) ![(1:ℝ)/4, 1/4, 1/4] scenModel
      (by simp [scenModel]) centroid3_scen.symm⟩

/-! ## Theorems: PDB reading and writing -/

theorem parse_wLine : parseAtomLine wLine = some ((3:ℚ)/2, 2, 3) := by
  have h : parseAtomLine wLine = some
      ((digitsToNat ['1'] : ℚ) + (digitsToNat ['5','0','0'] : ℚ) / 10 ^ 3,
       (digitsToNat ['2'] : ℚ) + (digitsToNat ['0','0','0'] : ℚ) / 10 ^ 3,
       (digitsToNat ['3'] : ℚ) + (digitsToNat ['0','0','0'] : ℚ) / 10 ^ 3) := rfl
  rw [h]
  norm_num [digitsToNat, show '1'.toNat = 49 from rfl, show '5'.toNat = 53 from rfl,
    show '0'.toNat = 48 from rfl, show '2'.toNat = 50 from rfl, show '3'.toNat = 51 from rfl]

/-- Evaluation rule for `fmtF3` on a nonnegative value with known scaled
floor. -/
theorem fmtF3_nonneg_eval (q : ℚ) (n : ℕ) (hq : 0 ≤ q)
    (hn : Int.floor (q * 1000 + 1/2) = (n : ℤ)) :
    fmtF3 q = natDigits (n / 1000) ++ '.' :: pad3 (n % 1000) := by
  simp only [fmtF3]
  rw [abs_of_nonneg hq, hn, if_neg (not_lt.mpr hq)]
  simp

theorem fmt83_val_1500 : fmt83 ((3:ℚ)/2) = ("   1.500").toList := by
  have h : fmtF3 ((3:ℚ)/2) = ("1.500").toList := by
    rw [fmtF3_nonneg_eval ((3:ℚ)/2) 1500 (by norm_num) (by norm_num)]
    decide
  rw [fmt83, h]
  decide

theorem fmt83_val_2000 : fmt83 ((2:ℚ)) = ("   2.000").toList := by
  have h : fmtF3 ((2:ℚ)) = ("2.000").toList := by
    rw [fmtF3_nonneg_eval ((2:ℚ)) 2000 (by norm_num) (by norm_num)]
    decide
  rw [fmt83, h]
  decide

theorem fmt83_val_3000 : fmt83 ((3:ℚ)) = ("   3.000").toList := by
  have h : fmtF3 ((3:ℚ)) = ("3.000").toList := by
    rw [fmtF3_nonneg_eval ((3:ℚ)) 3000 (by norm_num) (by norm_num)]
    decide
  rw [fmt83, h]
  decide

theorem fmt83_val_1000 : fmt83 ((1:ℚ)) = ("   1.000").toList := by
  have h : fmtF3 ((1:ℚ)) = ("1.000").toList := by
    rw [fmtF3_nonneg_eval ((1:ℚ)) 1000 (by norm_num) (by norm_num)]
    decide
  rw [fmt83, h]
  decide

theorem subst_wLine : substLine wLine ((3:ℚ)/2, 2, 3) = wLine := by
  show wLine.take 30 ++ fmt83 ((3:ℚ)/2) ++ fmt83 2 ++ fmt83 3 ++ wLine.drop 54 = wLine
  rw [fmt83_val_1500, fmt83_val_2000, fmt83_val_3000]
  decide

theorem read_wLine : readAtoms [wLine] = some [((3:ℚ)/2, 2, 3)] := by
  rw [readAtoms, if_pos (by decide), parse_wLine, readAtoms]

/-- Writing back exactly the atoms that were read reproduces every line, when
each ATOM line already carries the `%8.3f` rendering of its parsed
coordinates in columns 30-53. -/
theorem saveFrom_id (atoms : List Q3) :
    ∀ (ls : List (List Char)) (nr : ℕ) (rest : List Q3),
      readAtoms ls = some rest → atoms.drop nr = rest →
      (∀ L ∈ ls, isATOM L → ((parseAtomLine L).map (substLine L)).getD L = L) →
      saveFrom atoms nr ls = ls := by
  intro ls
  induction ls with
  | nil => intro nr rest _ _ _; rfl
  | cons L r ih =>
      intro nr rest hread hdrop hform
      by_cases hA : isATOM L
      · rw [readAtoms, if_pos hA] at hread
        rcases hp : parseAtomLine L with _ | p
        · rw [hp] at hread; simp at hread
        · rcases hr : readAtoms r with _ | rest'
          · rw [hp, hr] at hread; simp at hread
          · rw [hp, hr] at hread
            simp only [Option.some_inj] at hread
            subst hread
            have hget : atoms[nr]? = some p := by
              have h0 : (atoms.drop nr)[0]? = some p := by rw [hdrop]; simp
              rw [List.getElem?_drop] at h0
              simpa using h0
            have hdrop' : atoms.drop (nr + 1) = rest' := by
              have htl : (atoms.drop nr).tail = rest' := by rw [hdrop]; rfl
              rw [← htl, List.tail_drop]
            rw [saveFrom, if_pos hA, hget]
            have hsub : substLine L p = L := by
              have := hform L (List.mem_cons_self _ _) hA
              rw [hp] at this
              simpa using this
            show substLine L p :: saveFrom atoms (nr + 1) r = L :: r
            rw [hsub]
            rw [ih (nr + 1) rest' hr hdrop'
              (fun L' hL' => hform L' (List.mem_cons_of_mem _ hL'))]
      · rw [readAtoms, if_neg hA] at hread
        rw [saveFrom, if_neg hA]
        rw [ih nr rest hread hdrop (fun L' hL' => hform L' (List.mem_cons_of_mem _ hL'))]

/-- **C8, counterexample**: the file consisting of the single line
`"ATOM 0 X X X 0 1 2 3\n"` is read without error (its whitespace-split
fields 6-8 are `1`, `2`, `3`), but saving the freshly read model back does
not reproduce the file: `save` splices `"%8.3f"` renderings at the fixed
columns 30-53 (`line[:30] + ... + line[54:]`), which for this line — whose
coordinates were not stored there — appends 24 characters after the
newline.  Round-tripping is not byte-for-byte for every file. -/
theorem read_save_roundtrip_not_byte_identical :
    readAtoms [cexBadLine] = some [((1:ℚ), 2, 3)] ∧
      (saveFrom [((1:ℚ), 2, 3)] 0 [cexBadLine]).flatten
        ≠ ([cexBadLine] : List (List Char)).flatten := by
  refine ⟨by decide, ?_⟩
  have h1 : saveFrom [((1:ℚ), 2, 3)] 0 [cexBadLine]
      = [substLine cexBadLine ((1:ℚ), 2, 3)] := rfl
  have h2 : substLine cexBadLine ((1:ℚ), 2, 3)
      = cexBadLine.take 30 ++ fmt83 1 ++ fmt83 2 ++ fmt83 3 ++ cexBadLine.drop 54 := rfl
  rw [h1, h2, fmt83_val_1000, fmt83_val_2000, fmt83_val_3000]
  decide

/-- **C8, amended**: for every file whose ATOM records parse (nine
whitespace-separated fields with decimal coordinates in fields 6-8) *and*
already hold the `%8.3f` renderings of those coordinates in the fixed
columns 30-53 — as every file previously written by `save` does — reading
it and immediately saving reproduces the file byte-for-byte. -/
theorem read_save_roundtrip_wellformed (ls : List (List Char)) (atoms : List Q3)
    (hread : readAtoms ls = some atoms)
    (hform : ∀ L ∈ ls, isATOM L → ((parseAtomLine L).map (substLine L)).getD L = L) :
    (saveFrom atoms 0 ls).flatten = ls.flatten := by
  rw [saveFrom_id atoms ls 0 atoms hread (by simp) hform]

theorem hform_wLine : ∀ L ∈ [wLine], isATOM L = true →
    ((parseAtomLine L).map (substLine L)).getD L = L := by
  intro L hL _
  rw [List.mem_singleton] at hL
  subst hL
  rw [parse_wLine]
  simp only [Option.map_some', Option.getD_some]
  exact subst_wLine

/-- Witness for the amended C8 at the single-record well-formed file
`[wLine]`. -/
theorem read_save_roundtrip_wellformed_witness :
    readAtoms [wLine] = some [((3:ℚ)/2, 2, 3)] ∧
      (saveFrom [((3:ℚ)/2, 2, 3)] 0 [wLine]).flatten
        = ([wLine] : List (List Char)).flatten :=
  ⟨read_wLine, read_save_roundtrip_wellformed [wLine] [((3:ℚ)/2, 2, 3)] read_wLine hform_wLine⟩

/-- The writing loop agrees with the claim's description whenever the atoms
do not run out: from counter `nr`, the remaining ATOM records receive
`atoms[nr], atoms[nr+1], ...` in order. -/
theorem saveFrom_eq_specSave (atoms : List Q3) :
    ∀ (ls : List (List Char)) (nr : ℕ),
      nr + countATOM ls ≤ atoms.length →
      saveFrom atoms nr ls = specSave ls (atoms.drop nr) := by
  intro ls
  induction ls with
  | nil => intro nr _; rfl
  | cons L r ih =>
      intro nr hle
      by_cases hA : isATOM L
      · have hc : countATOM (L :: r) = countATOM r + 1 := by
          rw [countATOM, countATOM, List.countP_cons_of_pos _ _ hA]
        rw [hc] at hle
        have hlt : nr < atoms.length := by omega
        have hdrop : atoms.drop nr = atoms[nr] :: atoms.drop (nr + 1) :=
          List.drop_eq_getElem_cons hlt
        rw [saveFrom, if_pos hA, List.getElem?_eq_getElem hlt, hdrop, specSave, if_pos hA]
        show substLine L atoms[nr] :: saveFrom atoms (nr + 1) r
          = substLine L atoms[nr] :: specSave r (atoms.drop (nr + 1))
        rw [ih (nr + 1) (by omega)]
      · have hc : countATOM (L :: r) = countATOM r := by
          rw [countATOM, countATOM, List.countP_cons_of_neg _ _ (by simpa using hA)]
        rw [hc] at hle
        rw [saveFrom, if_neg hA, ih nr hle]
        rcases hd : atoms.drop nr with _ | ⟨a, t⟩
        · rw [specSave]
        · rw [specSave, if_neg hA]

/-- **C10**: when the model holds strictly more atoms than the header holds
ATOM records, `save` raises no error (`saveFrom` is total and never reaches
the record-dropping branch): it writes exactly what the claim describes
(`specSave`) — the first `k` atoms substituted into the `k` ATOM records in
original order, every non-ATOM header line verbatim, the remaining atoms
silently ignored. -/
theorem save_excess_atoms_truncates (header : List (List Char)) (atoms : List Q3)
    (h : countATOM header < atoms.length) :
    saveFrom atoms 0 header = specSave header atoms := by
  have hmain := saveFrom_eq_specSave atoms header 0 (by omega)
  simpa using hmain

/-- Witness for C10: a two-line header (one comment line, one ATOM record)
saved from a model holding two atoms. -/
theorem save_excess_atoms_truncates_witness :
    countATOM w10File < ([((1:ℚ),2,3), ((4:ℚ),5,6)] : List Q3).length ∧
      saveFrom [((1:ℚ),2,3), ((4:ℚ),5,6)] 0 w10File
        = specSave w10File [((1:ℚ),2,3), ((4:ℚ),5,6)] :=
  ⟨by decide, save_excess_atoms_truncates w10File [((1:ℚ),2,3), ((4:ℚ),5,6)] (by decide)⟩

end FreeSAS
